import Mathlib

/-!
Verification of the tiered cache and click-count aggregation layer of the
surl URL-shortening service (packages cache, services, handlers).

The Go source is shallowly embedded: the two cache tiers, the click-counter
maps, the log stream and the persisted URL table become explicit state; Go
maps become association lists observed through lookup; network calls to the
remote tier (Redis) and JSON (de)serialization become explicit environment
parameters, since their outcomes are decided outside the program.

Modelling notes, fixed once here:
- The key prefixes of cache.go (the string "url:" prepended to record keys
  and the string "clicks:" prepended to counter keys) are injective and the
  two key families live in disjoint namespaces, so they are represented as
  separate state fields keyed by the bare short code; the TrimPrefix in
  GetAllClickCounts is then the identity.
- go-cache (the Local tier) stores each entry with an absolute expiration,
  with the value 0 meaning no expiration; Get misses exactly when the
  expiration is positive and now exceeds it.  Time is an abstract Nat.
- Counter values stored in Redis are produced only by INCR, so the
  strconv.ParseInt calls on them always succeed; counters carry Int
  (Go int64) directly.
- The 24h Expire refresh on Remote counter keys and the background janitor
  of go-cache are not represented; no claim under scrutiny depends on
  counter self-expiry.
- gorm v2 semantics used by url_service.go: a call
  db.Model(&url).Updates(mapValues) applies the map to the matching row
  and also writes the map values back into the model struct url (callback
  ConvertToAssignments / assignValue), so after Updates the local variable
  url holds the post-update field values.
-/

namespace Surl

/-- A persisted URL record (models.URL); fields irrelevant to the claims
(custom domain, timestamps, soft-delete marker) are omitted. -/
structure URL where
  id : Nat
  shortCode : String
  originalURL : String
  title : String
  isActive : Bool
  expiresAt : Option Nat
  clickCount : Int
deriving DecidableEq, Repr

/-- An entry of the Local tier (a go-cache item): the record plus its
absolute expiration, 0 meaning no expiration. -/
structure MemItem where
  url : URL
  expireAt : Nat
deriving DecidableEq, Repr

/-- An entry of the Remote tier record cache: the serialized payload plus
its absolute expiration, 0 meaning no expiration. -/
structure RItem where
  data : String
  expireAt : Nat
deriving DecidableEq, Repr

/-- Lookup in an association list (observation of a Go map). -/
def lookupKV {α : Type} : List (String × α) → String → Option α
  | [], _ => none
  | (k, v) :: rest, key => if k = key then some v else lookupKV rest key

/-- Remove a key from an association list (Go map delete). -/
def eraseKV {α : Type} : List (String × α) → String → List (String × α)
  | [], _ => []
  | (k, v) :: rest, key =>
      if k = key then eraseKV rest key else (k, v) :: eraseKV rest key

/-- Assign a key in an association list (Go map assignment). -/
def insertKV {α : Type} (l : List (String × α)) (k : String) (v : α) :
    List (String × α) :=
  (k, v) :: eraseKV l k

/-- Counter read with absent keys implicitly zero (Go map of int64). -/
def countKV (l : List (String × Int)) (k : String) : Int :=
  (lookupKV l k).getD 0

/-- Add a delta to a counter key (Go map increment). -/
def bumpKV (l : List (String × Int)) (k : String) (d : Int) :
    List (String × Int) :=
  insertKV l k (countKV l k + d)

/-- The keys of an association list. -/
def keysOf {α : Type} (l : List (String × α)) : List String :=
  l.map Prod.fst

/-- Immutable configuration of the cache Manager: the tier-selection flag
decided once by the constructor, and the TTL fixed at construction
(cache.Manager fields useRedis and expiry).  Operations receive the Manager
by value and none of them returns a Manager, mirroring the source in which
no method ever writes these fields after NewCacheManager. -/
structure Manager where
  useRedis : Bool
  expiry : Nat
deriving DecidableEq, Repr

/-- Mutable state owned by the cache Manager: the Local record tier
(memCache entries under the url: prefix), the Remote record tier, the
Remote counter keys (clicks: prefix), the Local counter map
(memClickCounts) and the emitted log lines. -/
structure MState where
  mem : List (String × MemItem)
  redisURL : List (String × RItem)
  redisClicks : List (String × Int)
  memClicks : List (String × Int)
  logs : List String
deriving DecidableEq, Repr

/-- Outcomes of the external world for one cache operation: JSON
serialization of a record, deserialization of a payload, and
success/failure of each kind of Remote round trip. -/
structure Env where
  ser : URL → Option String
  deser : String → Option URL
  getOk : Bool
  setOk : Bool
  delOk : Bool
  incrOk : Bool
  getDelOk : Bool

/-- NewCacheManager: the Remote tier is enabled exactly when an address is
configured and the startup Ping succeeds; construction itself always
succeeds (a failed Ping only logs a warning and leaves useRedis false).
The password and database index only shape the connection options and do
not influence tier selection. -/
def newCacheManager (redisAddr redisPassword : String) (redisDB : Int)
    (cacheExpiry : Nat) (pingOk : Bool) : Manager :=
  { useRedis := (redisAddr != "") && pingOk, expiry := cacheExpiry }

/-- Expiration stamp written by a set at time now with the configured TTL
(go-cache Set and the Redis SET expiry alike): positive TTL gives an
absolute deadline, zero TTL gives the no-expiration marker 0. -/
def stampExpiry (now ttl : Nat) : Nat :=
  if ttl > 0 then now + ttl else 0

/-- Read of the Local tier (go-cache Get): miss when absent, or when the
entry carries a positive expiration that now has passed. -/
def memGet (now : Nat) (mem : List (String × MemItem)) (code : String) :
    Option URL :=
  match lookupKV mem code with
  | none => none
  | some it => if it.expireAt > 0 ∧ now > it.expireAt then none else some it.url

/-- Write to the Local tier (go-cache Set) with the Manager TTL. -/
def memSet (now ttl : Nat) (mem : List (String × MemItem)) (code : String)
    (u : URL) : List (String × MemItem) :=
  insertKV mem code { url := u, expireAt := stampExpiry now ttl }

/-- Read of the Remote record tier (redis GET): absent or expired keys
answer redis.Nil, modelled as none. -/
def redisGetStr (now : Nat) (r : List (String × RItem)) (key : String) :
    Option String :=
  match lookupKV r key with
  | none => none
  | some it => if it.expireAt > 0 ∧ now > it.expireAt then none else some it.data

/-- GetURL: Local tier first; on a Local miss, the Remote tier is consulted
only when enabled, and a Remote hit that deserializes is written back into
the Local tier with the configured TTL and returned.  A Remote network
error or a payload that fails to deserialize falls through to the
not-found result; the signature has no error channel, exactly as the Go
function returns only (value, found). -/
def getURL (m : Manager) (e : Env) (now : Nat) (code : String) (s : MState) :
    Option URL × MState :=
  match memGet now s.mem code with
  | some u => (some u, s)
  | none =>
    if m.useRedis then
      if e.getOk then
        match redisGetStr now s.redisURL code with
        | some val =>
          match e.deser val with
          | some u => (some u, { s with mem := memSet now m.expiry s.mem code u })
          | none => (none, s)
        | none => (none, s)
      else (none, s)
    else (none, s)

/-- SetURL: unconditional Local write; when the Remote tier is enabled the
record is serialized and written there with the same expiry, a failed
Remote SET only appends a log line, and a failed serialization silently
skips the Remote write.  The function returns no error to its caller. -/
def setURL (m : Manager) (e : Env) (now : Nat) (code : String) (u : URL)
    (s : MState) : MState :=
  let s1 := { s with mem := memSet now m.expiry s.mem code u }
  if m.useRedis then
    match e.ser u with
    | some payload =>
      if e.setOk then
        { s1 with redisURL :=
            insertKV s1.redisURL code { data := payload, expireAt := stampExpiry now m.expiry } }
      else
        { s1 with logs := s1.logs ++ ["Redis设置缓存失败"] }
    | none => s1
  else s1

/-- DeleteURL: unconditional Local delete; best-effort Remote delete when
the Remote tier is enabled, logging on failure. -/
def deleteURL (m : Manager) (e : Env) (code : String) (s : MState) : MState :=
  let s1 := { s with mem := eraseKV s.mem code }
  if m.useRedis then
    if e.delOk then
      { s1 with redisURL := eraseKV s1.redisURL code }
    else
      { s1 with logs := s1.logs ++ ["Redis删除缓存失败"] }
  else s1

/-- Local fallback counter increment (incrementMemoryClick), performed
under the dedicated counter mutex. -/
def incrementMemoryClick (code : String) (s : MState) : MState :=
  { s with memClicks := bumpKV s.memClicks code 1 }

/-- IncrementClick: prefers an atomic Remote INCR when the Remote tier is
enabled; on a Remote failure it logs and falls back to the Local counter;
with the Remote tier disabled it goes straight to the Local counter.  The
body runs as a spawned task in Go; the sequential embedding represents the
state after that task has completed. -/
def incrementClick (m : Manager) (e : Env) (code : String) (s : MState) :
    MState :=
  if m.useRedis then
    if e.incrOk then
      { s with redisClicks := bumpKV s.redisClicks code 1 }
    else
      incrementMemoryClick code
        { s with logs := s.logs ++ ["Redis增加点击计数失败"] }
  else incrementMemoryClick code s

/-- GetAndResetClicks: when the Remote tier is enabled, an atomic GETDEL of
the counter key contributes its value and removes the key (a failed round
trip contributes nothing and leaves the key); then the Local counter for
the code is read and deleted under the counter lock; the two contributions
are summed. -/
def getAndResetClicks (m : Manager) (e : Env) (code : String) (s : MState) :
    Int × MState :=
  let rp : Int × MState :=
    if m.useRedis && e.getDelOk then
      (countKV s.redisClicks code,
        { s with redisClicks := eraseKV s.redisClicks code })
    else (0, s)
  (rp.1 + countKV rp.2.memClicks code,
    { rp.2 with memClicks := eraseKV rp.2.memClicks code })

/-- GetAllClickCounts: scans the Remote counter keys, reads each one into
the result map (assignment, keys from a scan are distinct), then folds the
Local counter map on top by addition.  It takes only a read lock on the
Local map and deletes nothing in either tier: the state is not an output. -/
def getAllClickCounts (m : Manager) (s : MState) : List (String × Int) :=
  let base :=
    if m.useRedis then
      s.redisClicks.foldl (fun acc p => insertKV acc p.1 p.2) []
    else []
  s.memClicks.foldl (fun acc p => bumpKV acc p.1 p.2) base

/-- ClearClickCounts: deletes every Remote counter key (logging if the
batched DEL fails, in which case the keys survive) and replaces the Local
counter map with a fresh empty one. -/
def clearClickCounts (m : Manager) (delOk : Bool) (s : MState) : MState :=
  let s1 :=
    if m.useRedis then
      if delOk then { s with redisClicks := [] }
      else { s with logs := s.logs ++ ["Redis批量删除失败"] }
    else s
  { s1 with memClicks := [] }

/-- Total pending clicks of a code across both counter tiers. -/
def totalClicks (s : MState) (code : String) : Int :=
  countKV s.redisClicks code + countKV s.memClicks code

/-- N consecutive RegisterClick calls for one code, the n-th call seeing
the environment pat n. -/
def iterClicks (m : Manager) (pat : Nat → Env) (code : String) :
    Nat → MState → MState
  | 0, s => s
  | n + 1, s => incrementClick m (pat n) code (iterClicks m pat code n s)

/-- One external cache operation, as issued by the collaborators
(Publish, Lookup, Invalidate, RegisterClick, per-code drain). -/
inductive Op where
  | pub (code : String) (u : URL)
  | look (code : String)
  | inval (code : String)
  | click (code : String)
  | drain (code : String)
deriving Repr

/-- State transition of one operation against the cache Manager. -/
def stepOp (m : Manager) (e : Env) (now : Nat) : Op → MState → MState
  | .pub c u, s => setURL m e now c u s
  | .look c, s => (getURL m e now c s).2
  | .inval c, s => deleteURL m e c s
  | .click c, s => incrementClick m e c s
  | .drain c, s => (getAndResetClicks m e c s).2

/-- Run a sequence of cache operations left to right. -/
def runOps (m : Manager) (e : Env) (now : Nat) (ops : List Op) (s : MState) :
    MState :=
  ops.foldl (fun st o => stepOp m e now o st) s

/-- Cache write-through actions issued by the service layer. -/
inductive CacheOp where
  | setOp (code : String) (u : URL)
  | delOp (code : String)
deriving DecidableEq, Repr

/-- The one UPDATE of SyncClickCounts for a single code: an atomic
click_count = click_count + count on every row with that short code, or no
change at all when that UPDATE errors (the error is printed and the loop
continues with the next code). -/
def applyIncrement (fails : String → Bool) (db : List URL) (code : String)
    (n : Int) : List URL :=
  if fails code then db
  else db.map fun u =>
    if u.shortCode == code then { u with clickCount := u.clickCount + n } else u

/-- The per-code loop body of SyncClickCounts folded over a drained batch. -/
def applyAllCounts (fails : String → Bool) (db : List URL)
    (counts : List (String × Int)) : List URL :=
  counts.foldl (fun acc p => applyIncrement fails acc p.1 p.2) db

/-- SyncClickCounts: read the merged counters with GetAllClickCounts, apply
each one to the record store (per-code failures isolated), then call
ClearClickCounts. -/
def syncClickCounts (m : Manager) (fails : String → Bool) (delOk : Bool)
    (db : List URL) (s : MState) : List URL × MState :=
  (applyAllCounts fails db (getAllClickCounts m s), clearClickCounts m delOk s)

/-- State carried by the periodic aggregation loop, with a tick odometer
recording how many sweeps have executed. -/
structure SyncLoopState where
  db : List URL
  cacheS : MState
  ticks : Nat
deriving Repr

/-- StartClickCountSync run for a given number of ticker firings: each tick
unconditionally executes one SyncClickCounts sweep; the loop body has no
exit path, so consecutive ticks run no matter how any sweep fared. -/
def runSyncLoop (m : Manager) (fpat : Nat → String → Bool)
    (dpat : Nat → Bool) : Nat → SyncLoopState → SyncLoopState
  | 0, st => st
  | n + 1, st =>
      let next := syncClickCounts m (fpat st.ticks) (dpat st.ticks) st.db st.cacheS
      runSyncLoop m fpat dpat n
        { db := next.1, cacheS := next.2, ticks := st.ticks + 1 }

/-- The persisted click total visible for a short code (first matching row,
as gorm First would return it). -/
def dbClickCount (db : List URL) (code : String) : Option Int :=
  (db.find? fun u => u.shortCode == code).map (·.clickCount)

/-- Look a record up by primary key (gorm First by id). -/
def dbFindById (db : List URL) (id : Nat) : Option URL :=
  db.find? fun u => u.id == id

/-- GetURLByShortCode of the service layer, used by the redirect handler:
it consults only the cache Manager; the record store held by the service
(the db argument) is never queried.  A cache hit is returned only when the
record is active and unexpired; every other case answers the error
链接已失效. -/
def getURLByShortCode (m : Manager) (e : Env) (db : List URL) (now : Nat)
    (code : String) (s : MState) : Except String URL × MState :=
  match getURL m e now code s with
  | (some url, s1) =>
    if url.isActive &&
        (match url.expiresAt with
         | none => true
         | some exp => decide (now < exp)) then
      (.ok url, s1)
    else (.error "链接已失效", s1)
  | (none, s1) => (.error "链接已失效", s1)

/-- ToggleURLStatus: load the row by id, flip is_active via a map Updates
(under the gorm write-back the local variable then holds the new value),
and decide the cache action on that variable: if it reads active, delete
the code from the cache, otherwise re-read the row and set it into the
cache. -/
def toggleURLStatus (db : List URL) (id : Nat) :
    Except String (List URL × List CacheOp) :=
  match dbFindById db id with
  | none => .error "record not found"
  | some url =>
    let newActive := !url.isActive
    let db1 := db.map fun u =>
      if u.id == id then { u with isActive := newActive } else u
    let url1 := { url with isActive := newActive }
    if url1.isActive then
      .ok (db1, [.delOp url1.shortCode])
    else
      match dbFindById db1 id with
      | some updated => .ok (db1, [.setOp updated.shortCode updated])
      | none => .ok (db1, [])

/-- UpdateURL: load the row, build the partial update map (original_url,
title, expires_at only when provided; is_active only when it changes),
apply it via Updates (with gorm write-back into the loaded variable), then
decide the cache action on that variable: inactive deletes the code,
active re-reads the persisted row and sets it.  URL validation of a
non-empty replacement URL is abstracted by the valid predicate. -/
def updateURL (valid : String → Bool) (db : List URL) (id : Nat)
    (newURL newTitle : String) (newExpires : Option Nat) (active : Bool) :
    Except String (List URL × List CacheOp) :=
  match dbFindById db id with
  | none => .error "URL不存在"
  | some url =>
    if newURL ≠ "" ∧ valid newURL = false then .error "无效的URL格式"
    else
      let applyUpdates : URL → URL := fun u =>
        let u1 := if newURL ≠ "" then { u with originalURL := newURL } else u
        let u2 := if newTitle ≠ "" then { u1 with title := newTitle } else u1
        let u3 := if newExpires.isSome then { u2 with expiresAt := newExpires } else u2
        if active ≠ url.isActive then { u3 with isActive := active } else u3
      let db1 := db.map fun u => if u.id == id then applyUpdates u else u
      let url1 := applyUpdates url
      if !url1.isActive then
        .ok (db1, [.delOp url1.shortCode])
      else
        match dbFindById db1 id with
        | some updated => .ok (db1, [.setOp updated.shortCode updated])
        | none => .ok (db1, [])

/-- An empty cache-manager state, as right after construction. -/
def emptyMState : MState :=
  { mem := [], redisURL := [], redisClicks := [], memClicks := [], logs := [] }

/-- A sample persisted record used to instantiate theorems. -/
def sampleURL : URL :=
  { id := 1, shortCode := "abc", originalURL := "https://example.com/x",
    title := "t", isActive := true, expiresAt := none, clickCount := 0 }

/-- A baseline environment: every remote round trip succeeds,
serialization yields a fixed payload, deserialization rejects. -/
def envBase : Env :=
  { ser := fun _ => some "payload", deser := fun _ => none,
    getOk := true, setOk := true, delOk := true, incrOk := true,
    getDelOk := true }

/-- The baseline environment with a failing JSON serializer. -/
def envSerFail : Env := { envBase with ser := fun _ => none }

/-- A memory-only manager (Remote tier disabled) with a 60-unit TTL. -/
def mgrLocal : Manager := { useRedis := false, expiry := 60 }

/-- A manager with the Remote tier enabled and a 60-unit TTL. -/
def mgrRemote : Manager := { useRedis := true, expiry := 60 }

/-- A cache-manager state whose Remote record tier holds one payload for
the sample code and whose Local tier is empty. -/
def badPayloadState : MState :=
  { mem := [], redisURL := [("abc", { data := "bad", expireAt := 0 })],
    redisClicks := [], memClicks := [], logs := [] }

/-- A sequence of Publish calls, one per listed code, all at one instant
(the cache-warming pattern of WarmupCache and the §8 bounded-size
scenario). -/
def publishAll (m : Manager) (e : Env) (now : Nat) (f : String → URL)
    (codes : List String) (s : MState) : MState :=
  codes.foldl (fun st c => setURL m e now c (f c) st) s

/-! ### Association-list lemmas -/

theorem lookupKV_eraseKV {α : Type} (l : List (String × α)) (k c : String) :
    lookupKV (eraseKV l k) c = if k = c then none else lookupKV l c := by
  induction l with
  | nil => simp [eraseKV, lookupKV]
  | cons p rest ih =>
    obtain ⟨k0, v0⟩ := p
    by_cases h0 : k0 = k
    · by_cases hc : k = c
      · subst hc; simp [eraseKV, h0, ih]
      · simp [eraseKV, lookupKV, h0, hc, ih, h0 ▸ hc]
    · by_cases hc : k0 = c
      · subst hc
        have : ¬ k = k0 := fun h => h0 h.symm
        simp [eraseKV, lookupKV, h0, this]
      · simp [eraseKV, lookupKV, h0, hc, ih]

theorem lookupKV_insertKV {α : Type} (l : List (String × α)) (k c : String)
    (v : α) :
    lookupKV (insertKV l k v) c = if k = c then some v else lookupKV l c := by
  by_cases h : k = c <;> simp [insertKV, lookupKV, h, lookupKV_eraseKV]

theorem lookupKV_eq_none_of_not_mem {α : Type} (l : List (String × α))
    (c : String) (h : c ∉ keysOf l) : lookupKV l c = none := by
  induction l with
  | nil => rfl
  | cons p rest ih =>
    simp only [keysOf, List.map_cons, List.mem_cons] at h
    push_neg at h
    have : ¬ p.1 = c := fun hh => h.1 hh.symm
    obtain ⟨k0, v0⟩ := p
    simpa [lookupKV, this] using ih (by simpa [keysOf] using h.2)

theorem countKV_eq_zero_of_not_mem (l : List (String × Int)) (c : String)
    (h : c ∉ keysOf l) : countKV l c = 0 := by
  simp [countKV, lookupKV_eq_none_of_not_mem l c h]

theorem eraseKV_of_not_mem {α : Type} (l : List (String × α)) (c : String)
    (h : c ∉ keysOf l) : eraseKV l c = l := by
  induction l with
  | nil => rfl
  | cons p rest ih =>
    simp only [keysOf, List.map_cons, List.mem_cons] at h
    push_neg at h
    have : ¬ p.1 = c := fun hh => h.1 hh.symm
    obtain ⟨k0, v0⟩ := p
    simp only at this
    simp [eraseKV, this, ih (by simpa [keysOf] using h.2)]

theorem countKV_bumpKV (l : List (String × Int)) (k c : String) (d : Int) :
    countKV (bumpKV l k d) c = countKV l c + if k = c then d else 0 := by
  by_cases h : k = c
  · subst h; simp [bumpKV, countKV, lookupKV_insertKV]
  · simp [bumpKV, countKV, lookupKV_insertKV, h]

theorem countKV_eraseKV (l : List (String × Int)) (k c : String) :
    countKV (eraseKV l k) c = if k = c then 0 else countKV l c := by
  by_cases h : k = c <;> simp [countKV, lookupKV_eraseKV, h]

theorem keysOf_insertKV {α : Type} (l : List (String × α)) (k : String)
    (v : α) : keysOf (insertKV l k v) = k :: keysOf (eraseKV l k) := by
  simp [insertKV, keysOf]

theorem length_insertKV_of_not_mem {α : Type} (l : List (String × α))
    (k : String) (v : α) (h : k ∉ keysOf l) :
    (insertKV l k v).length = l.length + 1 := by
  simp [insertKV, eraseKV_of_not_mem l k h, Nat.add_comm]

/-! ### Fold lemmas for GetAllClickCounts -/

theorem lookupKV_foldl_insert_of_not_mem {α : Type}
    (l : List (String × α)) (acc : List (String × α)) (c : String)
    (h : c ∉ keysOf l) :
    lookupKV (l.foldl (fun a p => insertKV a p.1 p.2) acc) c =
      lookupKV acc c := by
  induction l generalizing acc with
  | nil => rfl
  | cons p rest ih =>
    simp only [keysOf, List.map_cons, List.mem_cons] at h
    push_neg at h
    have h1 : ¬ p.1 = c := fun hh => h.1 hh.symm
    rw [List.foldl_cons, ih _ (by simpa [keysOf] using h.2),
      lookupKV_insertKV, if_neg h1]

theorem lookupKV_foldl_insert_of_mem {α : Type}
    (l : List (String × α)) (acc : List (String × α)) (c : String)
    (hn : (keysOf l).Nodup) (h : c ∈ keysOf l) :
    lookupKV (l.foldl (fun a p => insertKV a p.1 p.2) acc) c =
      lookupKV l c := by
  induction l generalizing acc with
  | nil => cases h
  | cons p rest ih =>
    simp only [keysOf, List.map_cons, List.nodup_cons] at hn
    rw [List.foldl_cons]
    by_cases h1 : p.1 = c
    · have hrest : c ∉ keysOf rest := by
        rw [← h1]; exact hn.1
      rw [lookupKV_foldl_insert_of_not_mem _ _ _ hrest, lookupKV_insertKV,
        if_pos h1]
      obtain ⟨k0, v0⟩ := p
      simp only at h1
      simp [lookupKV, h1]
    · have hc : c ∈ keysOf rest := by
        simp only [keysOf, List.map_cons, List.mem_cons] at h
        rcases h with h | h
        · exact absurd h.symm h1
        · simpa [keysOf] using h
      rw [ih _ hn.2 hc]
      obtain ⟨k0, v0⟩ := p
      simp only at h1
      simp [lookupKV, h1]

theorem countKV_foldl_bump (l : List (String × Int))
    (acc : List (String × Int)) (c : String) (hn : (keysOf l).Nodup) :
    countKV (l.foldl (fun a p => bumpKV a p.1 p.2) acc) c =
      countKV acc c + countKV l c := by
  induction l generalizing acc with
  | nil => simp [countKV, lookupKV]
  | cons p rest ih =>
    simp only [keysOf, List.map_cons, List.nodup_cons] at hn
    rw [List.foldl_cons, ih _ hn.2, countKV_bumpKV]
    obtain ⟨k0, v0⟩ := p
    by_cases h1 : k0 = c
    · have h0 : countKV rest c = 0 := by
        apply countKV_eq_zero_of_not_mem
        rw [← h1]
        simpa [keysOf] using hn.1
      rw [if_pos h1, h0]
      simp [countKV, lookupKV, h1]
    · rw [if_neg h1]
      simp [countKV, lookupKV, h1]

theorem countKV_getAllClickCounts (m : Manager) (s : MState) (c : String)
    (hr : (keysOf s.redisClicks).Nodup) (hm : (keysOf s.memClicks).Nodup) :
    countKV (getAllClickCounts m s) c =
      (if m.useRedis then countKV s.redisClicks c else 0) +
        countKV s.memClicks c := by
  unfold getAllClickCounts
  rw [countKV_foldl_bump _ _ _ hm]
  congr 1
  by_cases hu : m.useRedis
  · simp only [hu, if_pos]
    by_cases hc : c ∈ keysOf s.redisClicks
    · unfold countKV
      rw [lookupKV_foldl_insert_of_mem _ _ _ hr hc]
    · unfold countKV
      rw [lookupKV_foldl_insert_of_not_mem _ _ _ hc,
        lookupKV_eq_none_of_not_mem _ _ hc]
      rfl
  · simp [hu, countKV, lookupKV]

/-! ### Frame lemmas for the cache operations -/

theorem setURL_mem (m : Manager) (e : Env) (now : Nat) (code : String)
    (u : URL) (s : MState) :
    (setURL m e now code u s).mem = memSet now m.expiry s.mem code u := by
  unfold setURL
  by_cases hu : m.useRedis
  · simp only [hu, if_pos]
    cases e.ser u <;> simp <;> split <;> rfl
  · simp [hu]

theorem setURL_clicks (m : Manager) (e : Env) (now : Nat) (code : String)
    (u : URL) (s : MState) :
    (setURL m e now code u s).redisClicks = s.redisClicks ∧
      (setURL m e now code u s).memClicks = s.memClicks := by
  unfold setURL
  by_cases hu : m.useRedis
  · simp only [hu, if_pos]
    cases e.ser u <;> simp <;> split <;> exact ⟨rfl, rfl⟩
  · simp [hu]

theorem deleteURL_mem (m : Manager) (e : Env) (code : String) (s : MState) :
    (deleteURL m e code s).mem = eraseKV s.mem code := by
  unfold deleteURL
  by_cases hu : m.useRedis
  · simp only [hu, if_pos]
    split <;> rfl
  · simp [hu]

theorem deleteURL_redisURL_ok (m : Manager) (e : Env) (code : String)
    (s : MState) (h : e.delOk = true) :
    (deleteURL m e code s).redisURL =
      if m.useRedis then eraseKV s.redisURL code else s.redisURL := by
  unfold deleteURL
  by_cases hu : m.useRedis <;> simp [hu, h]

theorem memGet_memSet_self (now t ttl : Nat)
    (mem : List (String × MemItem)) (code : String) (u : URL)
    (ht : t ≤ now + ttl) :
    memGet t (memSet now ttl mem code u) code = some u := by
  unfold memGet memSet stampExpiry
  rw [lookupKV_insertKV, if_pos rfl]
  by_cases h0 : ttl > 0
  · have : ¬ t > now + ttl := by omega
    simp [h0, this]
  · simp [h0]

theorem getURL_of_memGet_some (m : Manager) (e : Env) (now : Nat)
    (code : String) (s : MState) (u : URL)
    (h : memGet now s.mem code = some u) :
    getURL m e now code s = (some u, s) := by
  unfold getURL
  rw [h]

/-! ### Click-counter lemmas -/

theorem incrementClick_total_self (m : Manager) (e : Env) (code : String)
    (s : MState) :
    totalClicks (incrementClick m e code s) code = totalClicks s code + 1 := by
  unfold incrementClick incrementMemoryClick totalClicks
  by_cases hu : m.useRedis
  · by_cases hi : e.incrOk <;> simp [hu, hi, countKV_bumpKV] <;> ring
  · simp [hu, countKV_bumpKV]
    ring

theorem incrementClick_counts_other (m : Manager) (e : Env) (code d : String)
    (s : MState) (h : code ≠ d) :
    countKV (incrementClick m e code s).redisClicks d =
        countKV s.redisClicks d ∧
      countKV (incrementClick m e code s).memClicks d =
        countKV s.memClicks d := by
  unfold incrementClick incrementMemoryClick
  by_cases hu : m.useRedis
  · by_cases hi : e.incrOk <;> simp [hu, hi, countKV_bumpKV, h]
  · simp [hu, countKV_bumpKV, h]

theorem incrementClick_redis_of_local (m : Manager) (e : Env) (code : String)
    (s : MState) (h : m.useRedis = false) :
    (incrementClick m e code s).redisClicks = s.redisClicks := by
  simp [incrementClick, incrementMemoryClick, h]

theorem iterClicks_total_self (m : Manager) (pat : Nat → Env) (code : String)
    (n : Nat) (s : MState) :
    totalClicks (iterClicks m pat code n s) code =
      totalClicks s code + (n : Int) := by
  induction n with
  | zero => simp [iterClicks]
  | succ k ih =>
    rw [iterClicks, incrementClick_total_self, ih]
    push_cast
    ring

theorem iterClicks_counts_other (m : Manager) (pat : Nat → Env)
    (code d : String) (n : Nat) (s : MState) (h : code ≠ d) :
    countKV (iterClicks m pat code n s).redisClicks d =
        countKV s.redisClicks d ∧
      countKV (iterClicks m pat code n s).memClicks d =
        countKV s.memClicks d := by
  induction n with
  | zero => exact ⟨rfl, rfl⟩
  | succ k ih =>
    rw [iterClicks]
    obtain ⟨h1, h2⟩ := incrementClick_counts_other m (pat k) code d
      (iterClicks m pat code k s) h
    rw [h1, h2, ih.1, ih.2]
    exact ⟨rfl, rfl⟩

theorem iterClicks_redis_of_local (m : Manager) (pat : Nat → Env)
    (code : String) (n : Nat) (s : MState) (h : m.useRedis = false) :
    (iterClicks m pat code n s).redisClicks = s.redisClicks := by
  induction n with
  | zero => rfl
  | succ k ih => rw [iterClicks, incrementClick_redis_of_local _ _ _ _ h, ih]

theorem getAndResetClicks_fst (m : Manager) (e : Env) (code : String)
    (s : MState) (hok : e.getDelOk = true) :
    (getAndResetClicks m e code s).1 =
      (if m.useRedis then countKV s.redisClicks code else 0) +
        countKV s.memClicks code := by
  unfold getAndResetClicks
  by_cases hu : m.useRedis <;> simp [hu, hok]

theorem getAndResetClicks_twice (m : Manager) (e1 e2 : Env) (code : String)
    (s : MState) (hok : e1.getDelOk = true) :
    (getAndResetClicks m e2 code (getAndResetClicks m e1 code s).2).1 = 0 := by
  unfold getAndResetClicks
  by_cases hu : m.useRedis <;>
    by_cases h2 : e2.getDelOk <;>
      simp [hu, hok, h2, countKV_eraseKV]

/-! ### Claim C4 -/

/-- Claim C4: for a code C with no pending count in either tier,
RegisterClick(C) performed N times (each call free to land on the Remote
counter or fall back to the Local one) followed by a successful per-code
drain yields exactly N for C and 0 for any other untouched code D; a
second drain immediately after a successful drain yields 0 for every code,
whatever the state was; and reading the whole counter map directly after
the sweep-level clear likewise reports 0 for every code. -/
theorem registerClick_drain_exact (m : Manager) (pat : Nat → Env)
    (e1 e2 : Env) (N : Nat) (C D : String) (s : MState)
    (hCD : D ≠ C)
    (hCr : countKV s.redisClicks C = 0) (hCm : countKV s.memClicks C = 0)
    (hDr : countKV s.redisClicks D = 0) (hDm : countKV s.memClicks D = 0)
    (h1 : e1.getDelOk = true) :
    (getAndResetClicks m e1 C (iterClicks m pat C N s)).1 = (N : Int)
    ∧ (getAndResetClicks m e1 D (iterClicks m pat C N s)).1 = 0
    ∧ (∀ (X : String) (t : MState),
        (getAndResetClicks m e2 X (getAndResetClicks m e1 X t).2).1 = 0)
    ∧ (∀ (X : String) (t : MState),
        countKV (getAllClickCounts m (clearClickCounts m true t)) X = 0) := by
  have htot := iterClicks_total_self m pat C N s
  have hsweep : ∀ (X : String) (t : MState),
      countKV (getAllClickCounts m (clearClickCounts m true t)) X = 0 := by
    intro X t
    unfold clearClickCounts getAllClickCounts
    by_cases hu : m.useRedis <;> simp [hu, countKV, lookupKV]
  refine ⟨?_, ?_, fun X t => getAndResetClicks_twice m e1 e2 X t h1, hsweep⟩
  · rw [getAndResetClicks_fst _ _ _ _ h1]
    by_cases hu : m.useRedis
    · have h0 : totalClicks s C = 0 := by
        unfold totalClicks; rw [hCr, hCm]; ring
      rw [h0, zero_add] at htot
      unfold totalClicks at htot
      rw [if_pos hu]
      exact htot
    · have hred := iterClicks_redis_of_local m pat C N s (by simpa using hu)
      unfold totalClicks at htot
      rw [hred, hCr, hCm] at htot
      rw [if_neg hu]
      omega
  · rw [getAndResetClicks_fst _ _ _ _ h1]
    obtain ⟨hd1, hd2⟩ :=
      iterClicks_counts_other m pat C D N s (fun h => hCD h.symm)
    rw [hd1, hd2, hDr, hDm]
    simp

/-- Witness for C4 at concrete inputs: three clicks on code a, then a drain
of a, against an initially empty memory-only manager state. -/
theorem registerClick_drain_exact_witness :
    ("b" : String) ≠ "a"
    ∧ countKV emptyMState.memClicks "a" = 0
    ∧ (getAndResetClicks { useRedis := false, expiry := 60 } envBase "a"
        (iterClicks { useRedis := false, expiry := 60 } (fun _ => envBase)
          "a" 3 emptyMState)).1 = (3 : Int) :=
  ⟨by decide, by decide,
    (registerClick_drain_exact { useRedis := false, expiry := 60 }
      (fun _ => envBase) envBase envBase 3 "a" "b" emptyMState (by decide)
      (by decide) (by decide) (by decide) (by decide) rfl).1⟩

/-! ### Claim C5 -/

/-- Claim C5: after Publish(code, R) at time now, Lookup(code) at any time
t within the configured TTL returns exactly R, and after a successful
Invalidate(code) the same lookup misses, whatever the surrounding state
was. -/
theorem publish_lookup_until (m : Manager) (e0 e1 e2 e3 : Env) (now t : Nat)
    (code : String) (u : URL) (s : MState) (httl : 0 < m.expiry)
    (ht : t ≤ now + m.expiry) (hdel : e2.delOk = true) :
    (getURL m e1 t code (setURL m e0 now code u s)).1 = some u
    ∧ (getURL m e3 t code
        (deleteURL m e2 code (setURL m e0 now code u s))).1 = none := by
  constructor
  · have hm : memGet t (setURL m e0 now code u s).mem code = some u := by
      rw [setURL_mem]
      exact memGet_memSet_self now t m.expiry s.mem code u ht
    rw [getURL_of_memGet_some m e1 t code _ u hm]
  · set s1 := setURL m e0 now code u s with hs1
    have hmem : memGet t (deleteURL m e2 code s1).mem code = none := by
      rw [deleteURL_mem]
      unfold memGet
      rw [lookupKV_eraseKV, if_pos rfl]
    have hred : redisGetStr t (deleteURL m e2 code s1).redisURL code = none ∨
        m.useRedis = false := by
      by_cases hu : m.useRedis
      · left
        rw [deleteURL_redisURL_ok m e2 code s1 hdel, if_pos hu]
        unfold redisGetStr
        rw [lookupKV_eraseKV, if_pos rfl]
      · right; simpa using hu
    unfold getURL
    rw [hmem]
    rcases hred with hred | hred
    · by_cases hu : m.useRedis
      · by_cases hg : e3.getOk <;> simp [hu, hg, hred]
      · simp [hu]
    · simp [hred]

/-- Witness for C5 at concrete inputs: publish then look up after 30 time
units with a 60-unit TTL, and miss after an invalidate. -/
theorem publish_lookup_until_witness :
    (0 : Nat) < 60
    ∧ (30 : Nat) ≤ 0 + 60
    ∧ (getURL { useRedis := false, expiry := 60 } envBase 30 "abc"
        (setURL { useRedis := false, expiry := 60 } envBase 0 "abc" sampleURL
          emptyMState)).1 = some sampleURL :=
  ⟨by decide, by decide,
    (publish_lookup_until { useRedis := false, expiry := 60 } envBase envBase
      envBase envBase 0 30 "abc" sampleURL emptyMState (by decide) (by decide)
      rfl).1⟩

/-! ### Claim C9 -/

/-- Claim C9: on a Local miss, a Remote error on GET, or a Remote payload
that fails to deserialize, leaves GetURL with the ordinary not-found
result and an unchanged state; the function has no error channel at all,
so no failure can reach the caller. -/
theorem remote_error_is_miss (m : Manager) (e : Env) (now : Nat)
    (code : String) (s : MState) (hmem : memGet now s.mem code = none)
    (hfail : e.getOk = false ∨
      ∀ payload, redisGetStr now s.redisURL code = some payload →
        e.deser payload = none) :
    getURL m e now code s = (none, s) := by
  unfold getURL
  rw [hmem]
  by_cases hu : m.useRedis
  · rcases hfail with hfail | hfail
    · simp [hu, hfail]
    · by_cases hg : e.getOk
      · cases hr : redisGetStr now s.redisURL code with
        | none => simp [hu, hg, hr]
        | some payload => simp [hu, hg, hr, hfail payload hr]
      · simp [hu, hg]
  · simp [hu]

/-- Witness for C9 at concrete inputs: empty Local tier, Remote tier
enabled and holding an undeserializable payload for the code. -/
theorem remote_error_is_miss_witness :
    memGet 0 badPayloadState.mem "abc" = none
    ∧ getURL { useRedis := true, expiry := 60 } envBase 0 "abc"
        badPayloadState = (none, badPayloadState) :=
  ⟨by decide,
    remote_error_is_miss { useRedis := true, expiry := 60 } envBase 0 "abc"
      badPayloadState (by decide) (Or.inr fun _ _ => rfl)⟩

/-! ### Claim C1 -/

/-- Counterexample to claim C1 as stated: GetAllClickCounts removes
nothing.  After one Local increment of code a, the sweep's
GetAllClickCounts reports the count 1 for a, yet the Local counter for a
still holds 1 in the state the function was given — the function takes
only a read lock, deletes no key in either tier, and returns no modified
state (its type has no state output), so the drained key is not absent
afterwards and an immediate second read reports the same count again. -/
theorem getAllClickCounts_removes_nothing :
    getAllClickCounts mgrLocal (incrementClick mgrLocal envBase "a" emptyMState) =
      [("a", 1)]
    ∧ countKV (incrementClick mgrLocal envBase "a" emptyMState).memClicks "a" = 1 := by
  constructor <;> rfl

/-- Claim C1 amended: GetAllClickCounts reads every Remote counter
(pattern scan with a plain GET per key) and every Local counter (under the
read side of the counter lock), merges the two by key (sum) and returns
the merged mapping, WITHOUT removing anything from either tier; counters
are removed only by the separate ClearClickCounts call that the sweep
issues afterwards, which empties the Local map and, when its batched
Remote DEL succeeds, the Remote keys. -/
theorem getAllClickCounts_merge_and_clear (m : Manager) (s : MState)
    (c : String) (hr : (keysOf s.redisClicks).Nodup)
    (hm : (keysOf s.memClicks).Nodup) :
    countKV (getAllClickCounts m s) c =
      (if m.useRedis then countKV s.redisClicks c else 0) +
        countKV s.memClicks c
    ∧ (clearClickCounts m true s).memClicks = []
    ∧ (clearClickCounts m true s).redisClicks =
        (if m.useRedis then [] else s.redisClicks) := by
  refine ⟨countKV_getAllClickCounts m s c hr hm, ?_, ?_⟩
  · by_cases hu : m.useRedis <;> simp [clearClickCounts, hu]
  · by_cases hu : m.useRedis <;> simp [clearClickCounts, hu]

/-- Witness for the amended C1 at concrete inputs: code r pending with 2
Remote clicks and 3 Local clicks. -/
theorem getAllClickCounts_merge_and_clear_witness :
    (keysOf ([("r", 2)] : List (String × Int))).Nodup
    ∧ countKV (getAllClickCounts mgrRemote
        { mem := [], redisURL := [], redisClicks := [("r", 2)],
          memClicks := [("r", 3)], logs := [] }) "r" =
      (if mgrRemote.useRedis then countKV [("r", 2)] "r" else 0) +
        countKV [("r", 3)] "r" :=
  ⟨by decide,
    (getAllClickCounts_merge_and_clear mgrRemote
      { mem := [], redisURL := [], redisClicks := [("r", 2)],
        memClicks := [("r", 3)], logs := [] } "r" (by decide) (by decide)).1⟩

/-! ### Claim C8 -/

/-- Counterexample to claim C8 as stated: the claim has every remote write
OR serialization failure logged, but when json.Marshal fails SetURL skips
the Remote write silently — the log stream stays empty.  (The Local write
still lands and the caller still observes nothing, which the amended claim
keeps.) -/
theorem set_serialization_failure_unlogged :
    mgrRemote.useRedis = true
    ∧ envSerFail.ser sampleURL = none
    ∧ (setURL mgrRemote envSerFail 0 "abc" sampleURL emptyMState).logs = []
    ∧ (setURL mgrRemote envSerFail 0 "abc" sampleURL emptyMState).redisURL = []
    ∧ lookupKV (setURL mgrRemote envSerFail 0 "abc" sampleURL emptyMState).mem
        "abc" = some { url := sampleURL, expireAt := 60 } := by
  refine ⟨rfl, rfl, rfl, rfl, rfl⟩

/-- Claim C8 amended: SetURL writes the record into the Local tier
unconditionally; when the Remote tier is enabled, a serialization failure
silently skips the Remote write (nothing is logged), and a Remote write
failure appends a log line and is otherwise ignored; in every case the
Local write is not rolled back, and the function returns nothing, so the
caller never observes a failure. -/
theorem set_best_effort (m : Manager) (e : Env) (now : Nat) (code : String)
    (u : URL) (s : MState) :
    lookupKV (setURL m e now code u s).mem code =
      some { url := u, expireAt := stampExpiry now m.expiry }
    ∧ (m.useRedis = true → e.ser u = none →
        setURL m e now code u s =
          { s with mem := memSet now m.expiry s.mem code u })
    ∧ (∀ payload, m.useRedis = true → e.ser u = some payload →
        e.setOk = false →
        (setURL m e now code u s).redisURL = s.redisURL
        ∧ (setURL m e now code u s).logs = s.logs ++ ["Redis设置缓存失败"]) := by
  refine ⟨?_, ?_, ?_⟩
  · rw [setURL_mem]
    unfold memSet
    rw [lookupKV_insertKV, if_pos rfl]
  · intro hu hser
    simp [setURL, hu, hser]
  · intro payload hu hser hko
    unfold setURL
    rw [hser]
    simp [hu, hko]

/-- Witness for the amended C8 at concrete inputs: Remote enabled,
serialization succeeding, Remote SET failing. -/
theorem set_best_effort_witness :
    mgrRemote.useRedis = true
    ∧ ({ envBase with setOk := false } : Env).ser sampleURL = some "payload"
    ∧ ({ envBase with setOk := false } : Env).setOk = false
    ∧ (setURL mgrRemote { envBase with setOk := false } 0 "abc" sampleURL
        emptyMState).redisURL = emptyMState.redisURL
    ∧ (setURL mgrRemote { envBase with setOk := false } 0 "abc" sampleURL
        emptyMState).logs = emptyMState.logs ++ ["Redis设置缓存失败"] :=
  ⟨rfl, rfl, rfl,
    ((set_best_effort mgrRemote { envBase with setOk := false } 0 "abc"
        sampleURL emptyMState).2.2 "payload" rfl rfl rfl).1,
    ((set_best_effort mgrRemote { envBase with setOk := false } 0 "abc"
        sampleURL emptyMState).2.2 "payload" rfl rfl rfl).2⟩

/-! ### Claim C2 -/

theorem publishAll_mem_lookup_not_mem (m : Manager) (e : Env) (now : Nat)
    (f : String → URL) (codes : List String) (s : MState) (c : String)
    (h : c ∉ codes) :
    lookupKV (publishAll m e now f codes s).mem c = lookupKV s.mem c := by
  induction codes generalizing s with
  | nil => rfl
  | cons c0 rest ih =>
    simp only [List.mem_cons] at h
    push_neg at h
    rw [publishAll, List.foldl_cons]
    have := ih (setURL m e now c0 (f c0) s) h.2
    rw [publishAll] at this
    rw [this, setURL_mem]
    unfold memSet
    rw [lookupKV_insertKV, if_neg (fun hh => h.1 hh.symm)]

theorem publishAll_mem_lookup_mem (m : Manager) (e : Env) (now : Nat)
    (f : String → URL) (codes : List String) (s : MState) (c : String)
    (hn : codes.Nodup) (h : c ∈ codes) :
    lookupKV (publishAll m e now f codes s).mem c =
      some { url := f c, expireAt := stampExpiry now m.expiry } := by
  induction codes generalizing s with
  | nil => cases h
  | cons c0 rest ih =>
    rw [List.nodup_cons] at hn
    rw [publishAll, List.foldl_cons]
    by_cases hc : c = c0
    · subst hc
      have hnot : c ∉ rest := hn.1
      have := publishAll_mem_lookup_not_mem m e now f rest
        (setURL m e now c (f c) s) c hnot
      rw [publishAll] at this
      rw [this, setURL_mem]
      unfold memSet
      rw [lookupKV_insertKV, if_pos rfl]
    · have hmem : c ∈ rest := by
        rcases List.mem_cons.mp h with h | h
        · exact absurd h hc
        · exact h
      have := ih (setURL m e now c0 (f c0) s) hn.2 hmem
      rw [publishAll] at this
      rw [this]

theorem publishAll_mem_keys (m : Manager) (e : Env) (now : Nat)
    (f : String → URL) (codes : List String) (s : MState)
    (hfresh : ∀ c ∈ codes, c ∉ keysOf s.mem) (hn : codes.Nodup) :
    keysOf (publishAll m e now f codes s).mem =
      (codes.reverse.map id) ++ keysOf s.mem := by
  induction codes generalizing s with
  | nil => simp [publishAll]
  | cons c0 rest ih =>
    rw [List.nodup_cons] at hn
    rw [publishAll, List.foldl_cons]
    have hk : keysOf (setURL m e now c0 (f c0) s).mem =
        c0 :: keysOf s.mem := by
      rw [setURL_mem]
      unfold memSet
      rw [keysOf_insertKV,
        eraseKV_of_not_mem _ _ (hfresh c0 (List.mem_cons_self c0 rest))]
    have hfresh2 : ∀ c ∈ rest, c ∉ keysOf (setURL m e now c0 (f c0) s).mem := by
      intro c hc
      rw [hk]
      intro hmem
      rcases List.mem_cons.mp hmem with hmem | hmem
      · exact hn.1 (hmem ▸ hc)
      · exact hfresh c (List.mem_cons_of_mem c0 hc) hmem
    have := ih (setURL m e now c0 (f c0) s) hfresh2 hn.2
    rw [publishAll] at this
    rw [this, hk]
    simp

/-- Counterexample to claim C2 as stated (with the §8 scenario's maximum
of 2 Local entries): publishing the three distinct codes a, b, c into an
empty memory-only cache leaves the Local tier holding all 3 entries — the
entry count exceeds the bound of 2 and no older entry was evicted, so
every one of the three codes still hits on lookup. -/
theorem local_tier_bound_counterexample :
    (publishAll mgrLocal envBase 0 (fun c => { sampleURL with shortCode := c })
        ["a", "b", "c"] emptyMState).mem.length = 3
    ∧ ¬ (publishAll mgrLocal envBase 0
        (fun c => { sampleURL with shortCode := c })
        ["a", "b", "c"] emptyMState).mem.length ≤ 2
    ∧ (getURL mgrLocal envBase 0 "a"
        (publishAll mgrLocal envBase 0
          (fun c => { sampleURL with shortCode := c })
          ["a", "b", "c"] emptyMState)).1 =
      some { sampleURL with shortCode := "a" }
    ∧ (getURL mgrLocal envBase 0 "b"
        (publishAll mgrLocal envBase 0
          (fun c => { sampleURL with shortCode := c })
          ["a", "b", "c"] emptyMState)).1 =
      some { sampleURL with shortCode := "b" }
    ∧ (getURL mgrLocal envBase 0 "c"
        (publishAll mgrLocal envBase 0
          (fun c => { sampleURL with shortCode := c })
          ["a", "b", "c"] emptyMState)).1 =
      some { sampleURL with shortCode := "c" } := by
  refine ⟨rfl, by decide, rfl, rfl, rfl⟩

/-- Claim C2 amended: the Local tier (go-cache) enforces NO maximum entry
count and performs no least-recently-used eviction: publishing any number
of distinct codes into an empty cache leaves exactly one Local entry per
code — the entry count equals the number of codes published, however
large — and every published code still hits on lookup at publish time. -/
theorem local_tier_unbounded (m : Manager) (e : Env) (now : Nat)
    (f : String → URL) (codes : List String) (hn : codes.Nodup) :
    (publishAll m e now f codes emptyMState).mem.length = codes.length
    ∧ ∀ c ∈ codes,
        (getURL m e now c (publishAll m e now f codes emptyMState)).1 =
          some (f c) := by
  constructor
  · have hk := publishAll_mem_keys m e now f codes emptyMState
      (by intro c _; simp [emptyMState, keysOf]) hn
    have : (publishAll m e now f codes emptyMState).mem.length =
        (keysOf (publishAll m e now f codes emptyMState).mem).length := by
      simp [keysOf]
    rw [this, hk]
    simp [emptyMState, keysOf]
  · intro c hc
    have hl := publishAll_mem_lookup_mem m e now f codes emptyMState c hn hc
    have hmg : memGet now (publishAll m e now f codes emptyMState).mem c =
        some (f c) := by
      unfold memGet
      rw [hl]
      unfold stampExpiry
      by_cases h0 : m.expiry > 0
      · have : ¬ now > now + m.expiry := by omega
        simp [h0, this]
      · simp [h0]
    rw [getURL_of_memGet_some m e now c _ (f c) hmg]

/-- Witness for the amended C2 at concrete inputs: the three distinct
codes of the §8 scenario. -/
theorem local_tier_unbounded_witness :
    (["a", "b", "c"] : List String).Nodup
    ∧ (publishAll mgrLocal envBase 0
        (fun c => { sampleURL with shortCode := c })
        ["a", "b", "c"] emptyMState).mem.length =
      (["a", "b", "c"] : List String).length :=
  ⟨by decide,
    (local_tier_unbounded mgrLocal envBase 0
      (fun c => { sampleURL with shortCode := c }) ["a", "b", "c"]
      (by decide)).1⟩

/-! ### Claim C3 -/

/-- Claim C3 evaluated at the failing input (code-bug record): because a
gorm map Updates writes the new column values back into the loaded model
struct before the cache decision runs, ToggleURLStatus tests the
POST-toggle active state where its own comments describe the pre-toggle
one, and so acts inverted: deactivating an active record re-reads the row
and SETS the now-inactive record into the cache (first conjunct), while
activating an inactive record DELETES the code from the cache (second
conjunct).  UpdateURL, whose condition is aligned with the written-back
value, conforms to the claim: an update that deactivates deletes the code
and an update that leaves the record active sets the re-read row (third
and fourth conjuncts). -/
theorem toggle_cache_decision_inverted :
    toggleURLStatus [sampleURL] 1 =
      .ok ([{ sampleURL with isActive := false }],
        [CacheOp.setOp "abc" { sampleURL with isActive := false }])
    ∧ toggleURLStatus [{ sampleURL with isActive := false }] 1 =
      .ok ([sampleURL], [CacheOp.delOp "abc"])
    ∧ updateURL (fun _ => true) [sampleURL] 1 "" "" none false =
      .ok ([{ sampleURL with isActive := false }], [CacheOp.delOp "abc"])
    ∧ updateURL (fun _ => true) [{ sampleURL with isActive := false }] 1 ""
        "" none true =
      .ok ([sampleURL], [CacheOp.setOp "abc" sampleURL]) := by
  refine ⟨rfl, rfl, ?_, ?_⟩ <;> rfl

/-! ### Claim C6 -/

theorem stepOp_env_indep (m : Manager) (e1 e2 : Env) (now : Nat) (o : Op)
    (s : MState) (h : m.useRedis = false) :
    stepOp m e1 now o s = stepOp m e2 now o s := by
  cases o with
  | pub c u => simp [stepOp, setURL, h]
  | look c =>
    cases hm : memGet now s.mem c <;> simp [stepOp, getURL, h, hm]
  | inval c => simp [stepOp, deleteURL, h]
  | click c => simp [stepOp, incrementClick, incrementMemoryClick, h]
  | drain c => simp [stepOp, getAndResetClicks, h]

theorem stepOp_redis_frame (m : Manager) (e : Env) (now : Nat) (o : Op)
    (s : MState) (h : m.useRedis = false) :
    (stepOp m e now o s).redisURL = s.redisURL
    ∧ (stepOp m e now o s).redisClicks = s.redisClicks := by
  cases o with
  | pub c u => simp [stepOp, setURL, h]
  | look c =>
    cases hm : memGet now s.mem c <;> simp [stepOp, getURL, h, hm]
  | inval c => simp [stepOp, deleteURL, h]
  | click c => simp [stepOp, incrementClick, incrementMemoryClick, h]
  | drain c => simp [stepOp, getAndResetClicks, h]

theorem runOps_env_indep (m : Manager) (e1 e2 : Env) (now : Nat)
    (ops : List Op) (s : MState) (h : m.useRedis = false) :
    runOps m e1 now ops s = runOps m e2 now ops s := by
  induction ops generalizing s with
  | nil => rfl
  | cons o rest ih =>
    rw [runOps, List.foldl_cons, stepOp_env_indep m e1 e2 now o s h]
    exact ih (stepOp m e2 now o s)

theorem runOps_redis_frame (m : Manager) (e : Env) (now : Nat)
    (ops : List Op) (s : MState) (h : m.useRedis = false) :
    (runOps m e now ops s).redisURL = s.redisURL
    ∧ (runOps m e now ops s).redisClicks = s.redisClicks := by
  induction ops generalizing s with
  | nil => exact ⟨rfl, rfl⟩
  | cons o rest ih =>
    rw [runOps, List.foldl_cons]
    obtain ⟨h1, h2⟩ := stepOp_redis_frame m e now o s h
    obtain ⟨h3, h4⟩ := ih (stepOp m e now o s)
    rw [runOps] at h3 h4
    exact ⟨h3.trans h1, h4.trans h2⟩

/-- Claim C6: when the Remote address is absent or the startup Ping fails,
construction still yields a manager (memory-only) whose tier-selection
flag is false; the flag is configuration that no operation can write (the
operations consume the Manager and return only MState), every operation
sequence then leaves the Remote tier untouched and behaves identically
under every Remote environment, and Publish followed by Lookup, and
RegisterClick, still function against the Local tier alone. -/
theorem memory_only_mode (redisAddr redisPassword : String) (redisDB : Int)
    (cacheExpiry : Nat) (pingOk : Bool) (m : Manager)
    (hm : m = newCacheManager redisAddr redisPassword redisDB cacheExpiry pingOk)
    (h : redisAddr = "" ∨ pingOk = false) :
    m.useRedis = false
    ∧ (∀ (e1 e2 : Env) (now : Nat) (ops : List Op) (s : MState),
        runOps m e1 now ops s = runOps m e2 now ops s)
    ∧ (∀ (e : Env) (now : Nat) (ops : List Op) (s : MState),
        (runOps m e now ops s).redisURL = s.redisURL
        ∧ (runOps m e now ops s).redisClicks = s.redisClicks)
    ∧ (∀ (e : Env) (now : Nat) (code : String) (u : URL) (s : MState),
        (getURL m e now code (setURL m e now code u s)).1 = some u)
    ∧ (∀ (e : Env) (code : String) (s : MState),
        totalClicks (incrementClick m e code s) code =
          totalClicks s code + 1) := by
  have hu : m.useRedis = false := by
    subst hm
    rcases h with h | h <;> simp [newCacheManager, h]
  refine ⟨hu, fun e1 e2 now ops s => runOps_env_indep m e1 e2 now ops s hu,
    fun e now ops s => runOps_redis_frame m e now ops s hu,
    fun e now code u s => ?_, fun e code s => incrementClick_total_self m e code s⟩
  have hmg : memGet now (setURL m e now code u s).mem code = some u := by
    rw [setURL_mem]
    exact memGet_memSet_self now now m.expiry s.mem code u (Nat.le_add_right _ _)
  rw [getURL_of_memGet_some m e now code _ u hmg]

/-- Witness for C6 at concrete inputs: an empty Remote address. -/
theorem memory_only_mode_witness :
    (("" : String) = "" ∨ (true : Bool) = false)
    ∧ (newCacheManager "" "" 0 60 true).useRedis = false :=
  ⟨Or.inl rfl, (memory_only_mode "" "" 0 60 true _ rfl (Or.inl rfl)).1⟩

/-! ### Claim C7 -/

theorem applyIncrement_of_fails (fails : String → Bool) (db : List URL)
    (code : String) (n : Int) (h : fails code = true) :
    applyIncrement fails db code n = db := by
  simp [applyIncrement, h]

theorem find?_map_shortCode (g : URL → URL)
    (hsc : ∀ u, (g u).shortCode = u.shortCode) (db : List URL) (c : String) :
    (db.map g).find? (fun u => u.shortCode == c) =
      (db.find? (fun u => u.shortCode == c)).map g := by
  induction db with
  | nil => rfl
  | cons u rest ih =>
    have hgp : ((g u).shortCode == c) = (u.shortCode == c) := by rw [hsc]
    cases hpu : (u.shortCode == c) with
    | true => simp [List.find?_cons, hgp, hpu]
    | false => simp [List.find?_cons, hgp, hpu, ih]

theorem dbClickCount_applyIncrement_ne (fails : String → Bool)
    (db : List URL) (code c : String) (n : Int) (h : code ≠ c) :
    dbClickCount (applyIncrement fails db code n) c = dbClickCount db c := by
  by_cases hf : fails code
  · rw [applyIncrement_of_fails fails db code n hf]
  · unfold applyIncrement
    rw [if_neg hf]
    unfold dbClickCount
    rw [find?_map_shortCode _ (fun u => by by_cases hh : (u.shortCode == code) = true <;> simp [hh]) db c]
    cases hfind : db.find? (fun u => u.shortCode == c) with
    | none => rfl
    | some u =>
      have huc : u.shortCode = c := by simpa using List.find?_some hfind
      have hne : ¬ u.shortCode = code := by
        rw [huc]; exact fun hh => h hh.symm
      simp [hne]

theorem dbClickCount_applyIncrement_self (fails : String → Bool)
    (db : List URL) (c : String) (n : Int) (h : fails c = false) :
    dbClickCount (applyIncrement fails db c n) c =
      (dbClickCount db c).map (· + n) := by
  unfold applyIncrement
  rw [if_neg (by simp [h])]
  unfold dbClickCount
  rw [find?_map_shortCode _ (fun u => by by_cases hh : (u.shortCode == c) = true <;> simp [hh]) db c]
  cases hfind : db.find? (fun u => u.shortCode == c) with
  | none => rfl
  | some u =>
    have huc : u.shortCode = c := by simpa using List.find?_some hfind
    simp [huc]

theorem dbClickCount_applyAllCounts_not_mem (fails : String → Bool)
    (db : List URL) (counts : List (String × Int)) (c : String)
    (h : c ∉ keysOf counts) :
    dbClickCount (applyAllCounts fails db counts) c = dbClickCount db c := by
  induction counts generalizing db with
  | nil => rfl
  | cons p rest ih =>
    simp only [keysOf, List.map_cons, List.mem_cons] at h
    push_neg at h
    rw [applyAllCounts, List.foldl_cons]
    have := ih (applyIncrement fails db p.1 p.2) (by simpa [keysOf] using h.2)
    rw [applyAllCounts] at this
    rw [this, dbClickCount_applyIncrement_ne fails db p.1 c p.2
      (fun hh => h.1 hh.symm)]

theorem dbClickCount_applyAllCounts_fails (fails : String → Bool)
    (db : List URL) (counts : List (String × Int)) (c : String)
    (h : fails c = true) :
    dbClickCount (applyAllCounts fails db counts) c = dbClickCount db c := by
  induction counts generalizing db with
  | nil => rfl
  | cons p rest ih =>
    rw [applyAllCounts, List.foldl_cons]
    have := ih (applyIncrement fails db p.1 p.2)
    rw [applyAllCounts] at this
    rw [this]
    by_cases hc : p.1 = c
    · rw [hc, applyIncrement_of_fails fails db c p.2 h]
    · rw [dbClickCount_applyIncrement_ne fails db p.1 c p.2 hc]

theorem dbClickCount_applyAllCounts_mem (fails : String → Bool)
    (db : List URL) (counts : List (String × Int)) (c : String) (n : Int)
    (hn : (keysOf counts).Nodup) (hmem : (c, n) ∈ counts)
    (h : fails c = false) :
    dbClickCount (applyAllCounts fails db counts) c =
      (dbClickCount db c).map (· + n) := by
  induction counts generalizing db with
  | nil => cases hmem
  | cons p rest ih =>
    simp only [keysOf, List.map_cons, List.nodup_cons] at hn
    rw [applyAllCounts, List.foldl_cons]
    rcases List.mem_cons.mp hmem with hp | hp
    · have hnot : c ∉ keysOf rest := by
        rw [← hp] at hn
        exact hn.1
      have := dbClickCount_applyAllCounts_not_mem fails
        (applyIncrement fails db p.1 p.2) rest c hnot
      rw [applyAllCounts] at this
      rw [this, ← hp]
      exact dbClickCount_applyIncrement_self fails db c n h
    · have hne : p.1 ≠ c := by
        intro hh
        exact hn.1 (hh ▸ (by simpa [keysOf] using List.mem_map_of_mem Prod.fst hp))
      have := ih (applyIncrement fails db p.1 p.2) hn.2 hp
      rw [applyAllCounts] at this
      rw [this, dbClickCount_applyIncrement_ne fails db p.1 c p.2 hne]

theorem runSyncLoop_ticks (m : Manager) (fpat : Nat → String → Bool)
    (dpat : Nat → Bool) (n : Nat) (st : SyncLoopState) :
    (runSyncLoop m fpat dpat n st).ticks = st.ticks + n := by
  induction n generalizing st with
  | zero => rfl
  | succ k ih =>
    rw [runSyncLoop, ih]
    simp
    omega

/-- Claim C7: during a sweep, a failing per-code UPDATE does not abort the
batch — any other code of the drained batch whose UPDATE succeeds still
receives exactly its increment (first conjunct), the failing code's rows
stay unchanged, i.e. its counts are dropped (second conjunct), its
counters are nevertheless cleared rather than retried (fourth conjunct),
and the periodic loop completes every scheduled tick no matter which
UPDATEs failed on which tick (third conjunct). -/
theorem sync_partial_failure_isolated (fails : String → Bool)
    (counts : List (String × Int)) (db : List URL) (c : String) (n k : Int)
    (hnodup : (keysOf counts).Nodup) (hmem : (c, n) ∈ counts)
    (hdb : dbClickCount db c = some k) :
    (fails c = false →
      dbClickCount (applyAllCounts fails db counts) c = some (k + n))
    ∧ (fails c = true →
      dbClickCount (applyAllCounts fails db counts) c = some k)
    ∧ (∀ (m : Manager) (fpat : Nat → String → Bool) (dpat : Nat → Bool)
        (N : Nat) (st : SyncLoopState),
        (runSyncLoop m fpat dpat N st).ticks = st.ticks + N)
    ∧ (∀ (m : Manager) (f2 : String → Bool) (delOk : Bool) (s : MState),
        (syncClickCounts m f2 delOk db s).2.memClicks = []
        ∧ (m.useRedis = true → delOk = true →
            (syncClickCounts m f2 delOk db s).2.redisClicks = [])) := by
  refine ⟨fun h => ?_, fun h => ?_,
    fun m fpat dpat N st => runSyncLoop_ticks m fpat dpat N st,
    fun m f2 delOk s => ⟨?_, fun hu hd => ?_⟩⟩
  · rw [dbClickCount_applyAllCounts_mem fails db counts c n hnodup hmem h, hdb]
    rfl
  · rw [dbClickCount_applyAllCounts_fails fails db counts c h, hdb]
  · unfold syncClickCounts clearClickCounts
    by_cases hu : m.useRedis <;> by_cases hd : delOk <;> simp [hu, hd]
  · unfold syncClickCounts clearClickCounts
    simp [hu, hd]

/-- Witness for C7 at concrete inputs: a two-code batch in which the
UPDATE for code x fails while the UPDATE for code a succeeds; code a still
receives its 2 clicks. -/
theorem sync_partial_failure_isolated_witness :
    (keysOf ([("a", 2), ("x", 5)] : List (String × Int))).Nodup
    ∧ (("a", (2 : Int)) ∈ ([("a", 2), ("x", 5)] : List (String × Int)))
    ∧ dbClickCount [sampleURL] "abc" = some 0
    ∧ dbClickCount
        (applyAllCounts (fun c => c == "x")
          [{ sampleURL with shortCode := "a", clickCount := 7 }]
          [("a", 2), ("x", 5)]) "a" = some (7 + 2) :=
  ⟨by decide, by decide, by decide,
    (sync_partial_failure_isolated (fun c => c == "x")
      [("a", 2), ("x", 5)]
      [{ sampleURL with shortCode := "a", clickCount := 7 }] "a" 2 7
      (by decide) (by decide) (by decide)).1 rfl⟩

/-! ### Claim C10 -/

/-- Claim C10: the service lookup behind the redirect path never consults
the record store — its result is unchanged under an arbitrary replacement
of the store (first conjunct) — and it returns a record exactly when the
cache returns a hit that is active and unexpired; a cache miss, an
inactive hit, or an expired hit all answer the error 链接已失效 (remaining
conjuncts), so an active persisted record absent from both cache tiers is
reported invalid rather than fetched from the store. -/
theorem redirect_lookup_cache_only (m : Manager) (e : Env)
    (db1 db2 : List URL) (now : Nat) (code : String) (s : MState) :
    getURLByShortCode m e db1 now code s = getURLByShortCode m e db2 now code s
    ∧ (∀ (r : URL) (s1 : MState), getURL m e now code s = (some r, s1) →
        r.isActive = true →
        (r.expiresAt = none ∨ ∃ exp, r.expiresAt = some exp ∧ now < exp) →
        getURLByShortCode m e db1 now code s = (.ok r, s1))
    ∧ (∀ s1 : MState, getURL m e now code s = (none, s1) →
        getURLByShortCode m e db1 now code s = (.error "链接已失效", s1))
    ∧ (∀ (r : URL) (s1 : MState), getURL m e now code s = (some r, s1) →
        (r.isActive = false ∨ ∃ exp, r.expiresAt = some exp ∧ exp ≤ now) →
        getURLByShortCode m e db1 now code s = (.error "链接已失效", s1)) := by
  refine ⟨rfl, fun r s1 hget hact hexp => ?_, fun s1 hget => ?_,
    fun r s1 hget hbad => ?_⟩
  · unfold getURLByShortCode
    rw [hget]
    rcases hexp with hexp | ⟨exp, hexp, hlt⟩
    · simp [hact, hexp]
    · simp [hact, hexp, hlt]
  · unfold getURLByShortCode
    rw [hget]
  · unfold getURLByShortCode
    rw [hget]
    rcases hbad with hbad | ⟨exp, hexp, hle⟩
    · simp [hbad]
    · have : ¬ now < exp := by omega
      cases hact : r.isActive <;> simp [hact, hexp, this]

/-- Witness for C10 at concrete inputs: an empty cache and a store that
does hold an active record for the code — the lookup still answers the
invalid-link error. -/
theorem redirect_lookup_cache_only_witness :
    getURL mgrLocal envBase 0 "abc" emptyMState = (none, emptyMState)
    ∧ getURLByShortCode mgrLocal envBase [sampleURL] 0 "abc" emptyMState =
      (.error "链接已失效", emptyMState) :=
  ⟨rfl,
    (redirect_lookup_cache_only mgrLocal envBase [sampleURL] [] 0 "abc"
      emptyMState).2.2.1 emptyMState rfl⟩

end Surl
